import Mathlib

/-!
Verification development for the SeaStreetDetailing scheduling platform.

The repository ships the customer-facing booking UI (`src/unnamed/part_000`,
a multi-step booking form, and `src/src/app/booking-confirmation/page.tsx`);
its availability and reservation engine sits behind the `/api/availability`
and `/api/bookings` endpoints, whose code is not part of the staged sources,
so those components are modelled from the specification (each such
definition's doc comment says so).  Times are minutes from midnight of the
service day (`Nat`); money is integer cents on the engine side, and the
form's dollar amounts (the API's cents divided by 100) are rationals.
-/

namespace Engine

/-- Modelled from the spec: a catalog `Service` — id, name, duration in
minutes, price in integer cents (§3). -/
structure Service where
  id : String
  name : String
  duration : Nat
  priceCents : Nat
  deriving DecidableEq, Repr

/-- Modelled from the spec: a catalog `AddOn` (§3). -/
structure AddOn where
  id : String
  name : String
  duration : Nat
  priceCents : Nat
  deriving DecidableEq, Repr

/-- Modelled from the spec: the catalog provider's view — the current lists
of services and add-ons (§6). -/
structure Catalog where
  services : List Service
  addOns : List AddOn
  deriving DecidableEq, Repr

/-- Booking status (§3): `Confirmed`, or the terminal `Cancelled`. -/
inductive BookingStatus where
  | confirmed
  | cancelled
  deriving DecidableEq, Repr

/-- Modelled from the spec: a persisted `Booking` (§3).  The audit-only
customer contact fields, notes and `createdAt` are omitted: no claim
mentions them. -/
structure Booking where
  id : Nat
  serviceId : String
  addOnIds : List String
  startAtUtc : Nat
  endAtUtc : Nat
  priceCents : Nat
  status : BookingStatus
  deriving DecidableEq, Repr

/-- A computed candidate bookable window (§3).  The source field `end` is a
Lean keyword, so it is named `stop` here. -/
structure TimeSlot where
  start : Nat
  stop : Nat
  deriving DecidableEq, Repr

/-- Modelled from the spec: the `CalendarPolicy` (§3), restricted to the
single queried day with its operating window already resolved to minutes
(`openMin`/`closeMin`); a closed weekday would yield the empty window
upstream.  `leadStartMin` is "now + minimum lead time" resolved against the
queried day (0 for a day wholly beyond the lead horizon). -/
structure CalendarPolicy where
  openMin : Nat
  closeMin : Nat
  granularityMin : Nat
  bufferMin : Nat
  leadStartMin : Nat
  deriving DecidableEq, Repr

/-- Rounds `x` up to the next multiple of the step `g` (§4.1 step 2). -/
def roundUpToStep (g x : Nat) : Nat :=
  ((x + g - 1) / g) * g

/-- Modelled from the spec: the first candidate start — the later of the
window open and the lead cutoff rounded up to the next granularity boundary
of the window's grid (§4.1 step 2). -/
def firstCandidate (p : CalendarPolicy) : Nat :=
  if p.leadStartMin ≤ p.openMin then p.openMin
  else p.openMin + roundUpToStep p.granularityMin (p.leadStartMin - p.openMin)

/-- Modelled from the spec: candidate start instants at granularity steps
across the operating window (§4.1 step 2). -/
def candidateStarts (p : CalendarPolicy) : List Nat :=
  if p.granularityMin = 0 ∨ p.closeMin ≤ firstCandidate p then []
  else
    (List.range ((p.closeMin - firstCandidate p + p.granularityMin - 1) / p.granularityMin)).map
      (fun k => firstCandidate p + k * p.granularityMin)

/-- Whether the candidate interval `[s, e)` conflicts with one existing
Confirmed booking once that booking's interval is expanded by the full
inter-job buffer on both sides (§4.1 step 4); over the integers this is
`[s, e) ∩ [b.startAtUtc − buf, b.endAtUtc + buf) ≠ ∅`, written without
truncated subtraction. -/
def conflictsWith (buf s e : Nat) (b : Booking) : Bool :=
  (b.status == BookingStatus.confirmed) &&
    decide (s < b.endAtUtc + buf) && decide (b.startAtUtc < e + buf)

/-- Whether any existing booking blocks the candidate interval (§4.1 step 4:
Cancelled bookings are excluded from the check). -/
def hasConflict (buf s e : Nat) (bookings : List Booking) : Bool :=
  bookings.any (conflictsWith buf s e)

/-- Modelled from the spec: the Availability Engine (§4.1) —
`computeSlots(date, requestedDurationMinutes, policy, existingBookings)`.
Candidates are generated at granularity steps, rejected when the candidate
end exceeds the close time (step 3), rejected on a buffered conflict with a
Confirmed booking (step 4), and emitted in ascending order (step 5; the
local-time display label is a presentation concern and is not modelled). -/
def computeSlots (p : CalendarPolicy) (requestedDurationMinutes : Nat)
    (existingBookings : List Booking) : List TimeSlot :=
  ((candidateStarts p).filter (fun s =>
      decide (s + requestedDurationMinutes ≤ p.closeMin) &&
        !(hasConflict p.bufferMin s (s + requestedDurationMinutes) existingBookings))).map
    (fun s => ⟨s, s + requestedDurationMinutes⟩)

/-- Modelled from the spec: a `BookingRequest` (§3); contact fields are
omitted as no claim mentions them. -/
structure BookingRequest where
  serviceId : String
  addOnIds : List String
  startAtUtc : Nat
  deriving DecidableEq, Repr

/-- Typed rejection reasons (§7; `StoreUnavailable` is a persistence
failure outside the modelled logic). -/
inductive RejectionReason where
  | unknownService
  | unknownAddOn
  | invalidSlot
  | slotNoLongerAvailable
  deriving DecidableEq, Repr

/-- `reserve`'s outcome: a created Booking or a typed rejection (§4.2). -/
inductive ReserveResult where
  | booked (b : Booking)
  | rejected (r : RejectionReason)
  deriving DecidableEq, Repr

/-- Modelled from the spec: the booking store's state — the persisted
bookings and the next fresh id (§6). -/
structure StoreState where
  bookings : List Booking
  nextId : Nat
  deriving DecidableEq, Repr

def findService (c : Catalog) (sid : String) : Option Service :=
  c.services.find? (fun s => s.id == sid)

def findAddOn (c : Catalog) (aid : String) : Option AddOn :=
  c.addOns.find? (fun a => a.id == aid)

def resolveAddOns (c : Catalog) (ids : List String) : Option (List AddOn) :=
  ids.mapM (findAddOn c)

/-- The requested total duration of a request, when its ids resolve
(§4.2 step 2). -/
def reqDuration (c : Catalog) (r : BookingRequest) : Option Nat :=
  (findService c r.serviceId).bind (fun svc =>
    (resolveAddOns c r.addOnIds).map (fun adds =>
      svc.duration + (adds.map AddOn.duration).sum))

/-- Modelled from the spec: the Reservation Manager's
`reserve(request, policy, catalog)` (§4.2).  Steps: resolve the ids (1),
compute the total duration and price (2), derive the end instant (3),
re-check the buffered overlap against the current Confirmed bookings (4,
failing with `slotNoLongerAvailable`), check lead time and operating hours
(5, failing with `invalidSlot`), then commit atomically with a fresh id and
status Confirmed (6).  §5 makes steps 4–6 one atomic unit, so concurrent
attempts are modelled as a serialization of whole `reserve` calls. -/
def reserve (c : Catalog) (p : CalendarPolicy) (req : BookingRequest)
    (st : StoreState) : ReserveResult × StoreState :=
  match findService c req.serviceId with
  | none => (.rejected .unknownService, st)
  | some svc =>
    match resolveAddOns c req.addOnIds with
    | none => (.rejected .unknownAddOn, st)
    | some adds =>
      let totalDuration := svc.duration + (adds.map AddOn.duration).sum
      let priceCents := svc.priceCents + (adds.map AddOn.priceCents).sum
      let startAt := req.startAtUtc
      let endAt := startAt + totalDuration
      if hasConflict p.bufferMin startAt endAt st.bookings then
        (.rejected .slotNoLongerAvailable, st)
      else if !(decide (p.openMin ≤ startAt) && decide (endAt ≤ p.closeMin) &&
          decide (p.leadStartMin ≤ startAt)) then
        (.rejected .invalidSlot, st)
      else
        let b : Booking :=
          ⟨st.nextId, req.serviceId, req.addOnIds, startAt, endAt, priceCents, .confirmed⟩
        (.booked b, ⟨b :: st.bookings, st.nextId + 1⟩)

/-- A serialized run of reservation attempts: §5 requires the check-and-commit
of each `reserve` to be one atomic unit, so any interleaving of concurrent
calls is observationally one of these serializations. -/
def processAll (c : Catalog) (p : CalendarPolicy) (reqs : List BookingRequest)
    (st : StoreState) : List ReserveResult × StoreState :=
  match reqs with
  | [] => ([], st)
  | r :: rs =>
    let step := reserve c p r st
    let rest := processAll c p rs step.2
    (step.1 :: rest.1, rest.2)

/-- Two bookings, each extended at its end by the inter-job buffer, do not
overlap (§3's invariant, symmetric form). -/
def NoBufOverlap (buf : Nat) (b₁ b₂ : Booking) : Prop :=
  ¬(b₁.startAtUtc < b₂.endAtUtc + buf ∧ b₂.startAtUtc < b₁.endAtUtc + buf)

/-- §3's calendar invariant: no two Confirmed bookings whose buffered
intervals overlap. -/
def CalendarInvariant (buf : Nat) (bookings : List Booking) : Prop :=
  bookings.Pairwise (fun b₁ b₂ =>
    b₁.status = .confirmed → b₂.status = .confirmed → NoBufOverlap buf b₁ b₂)

end Engine

namespace Frontend

/-- The booking form's `Service` interface (`src/unnamed/part_000` lines
5–12).  `price` is the API's cents divided by 100, kept exact as a
rational. -/
structure Service where
  id : String
  name : String
  price : ℚ
  duration : Nat
  features : List String
  featured : Bool
  deriving DecidableEq, Repr

/-- The booking form's `AddOn` interface (lines 14–19). -/
structure AddOn where
  id : String
  name : String
  price : ℚ
  duration : Nat
  deriving DecidableEq, Repr

/-- The booking form's `TimeSlot` interface (lines 41–47); the source field
`end` is a Lean keyword, so it is named `stop` here. -/
structure TimeSlotF where
  start : String
  stop : String
  startUtc : String
  endUtc : String
  formatted : String
  deriving DecidableEq, Repr

/-- `services.find(s => s.id === selectedService)` (line 182), with the
nullable selection made explicit. -/
def selectedServiceData (services : List Service) (selectedService : Option String) :
    Option Service :=
  selectedService.bind (fun sid => services.find? (fun s => s.id == sid))

/-- `selectedServiceData?.price || 0` (line 183). -/
def servicePrice (services : List Service) (selectedService : Option String) : ℚ :=
  ((selectedServiceData services selectedService).map Service.price).getD 0

/-- `selectedServiceData?.duration || 0` (line 184). -/
def serviceDuration (services : List Service) (selectedService : Option String) : Nat :=
  ((selectedServiceData services selectedService).map Service.duration).getD 0

/-- The `reduce` over the selected add-on ids summing looked-up prices
(lines 186–189): `total + (addon?.price || 0)` starting from 0. -/
def addOnsTotal (addOns : List AddOn) (selectedAddOns : List String) : ℚ :=
  selectedAddOns.foldl
    (fun total addonId =>
      total + (((addOns.find? (fun a => a.id == addonId)).map AddOn.price).getD 0))
    0

/-- The `reduce` summing looked-up durations (lines 191–194). -/
def addOnsDuration (addOns : List AddOn) (selectedAddOns : List String) : Nat :=
  selectedAddOns.foldl
    (fun total addonId =>
      total + (((addOns.find? (fun a => a.id == addonId)).map AddOn.duration).getD 0))
    0

/-- `grandTotal = servicePrice + addOnsTotal` (line 196). -/
def grandTotal (services : List Service) (addOns : List AddOn)
    (selectedService : Option String) (selectedAddOns : List String) : ℚ :=
  servicePrice services selectedService + addOnsTotal addOns selectedAddOns

/-- `totalDuration = serviceDuration + addOnsDuration` (line 197). -/
def totalDuration (services : List Service) (addOns : List AddOn)
    (selectedService : Option String) (selectedAddOns : List String) : Nat :=
  serviceDuration services selectedService + addOnsDuration addOns selectedAddOns

/-- One entry of the date picker (lines 219–223); `date` abstracts the ISO
day as a day number, and the two locale-formatted labels are produced by
the ambient formatting functions. -/
structure DateEntry where
  date : Nat
  formatted : String
  dayName : String
  deriving DecidableEq, Repr

/-- `generateAvailableDates` (lines 211–227): for `i` from 1 to 30 push the
day `today + i` with its formatted labels.  JS `Date` is abstracted to a
day number, so `setDate(today.getDate() + i)` is `today + i`. -/
def generateAvailableDates (fmtMonthDay fmtWeekday : Nat → String) (today : Nat) :
    List DateEntry :=
  (List.range 30).map (fun i =>
    let d := today + (i + 1)
    ⟨d, fmtMonthDay d, fmtWeekday d⟩)

/-- `handleAddOnToggle` (lines 235–241): remove the id when present,
append it when absent. -/
def handleAddOnToggle (addonId : String) (prev : List String) : List String :=
  if addonId ∈ prev then prev.filter (fun id => id ≠ addonId)
  else prev ++ [addonId]

/-- JS string whitespace trimming, on strings modelled as character
lists. -/
def trimChars (l : List Char) : List Char :=
  ((l.dropWhile Char.isWhitespace).reverse.dropWhile Char.isWhitespace).reverse

/-- One character class `[^\s@]` of the form's email pattern. -/
def emailOk (c : Char) : Bool :=
  !c.isWhitespace && c != '@'

/-- The test of the regex `^[^\s@]+@[^\s@]+\.[^\s@]+$` (line 263): a
nonempty run of `[^\s@]` up to the first `@`, and after it a segment of
`[^\s@]` containing a `.` that is neither its first nor its last
character. -/
def emailRegexTest (l : List Char) : Bool :=
  let a := l.takeWhile (fun c => c ≠ '@')
  match l.dropWhile (fun c => c ≠ '@') with
  | [] => false
  | _ :: post =>
    !a.isEmpty && a.all emailOk && post.all emailOk &&
      ((post.drop 1).dropLast.contains '.')

/-- The regex `^[^\s@]+@[^\s@]+\.[^\s@]+$` as a matching proposition: the
whole string splits as `a ++ "@" ++ b ++ "." ++ c` with `a`, `b`, `c`
nonempty runs of `[^\s@]` (the `.` may recur inside `b` or `c`). -/
def MatchesEmailPattern (l : List Char) : Prop :=
  ∃ a b c : List Char,
    l = a ++ '@' :: (b ++ '.' :: c) ∧ a ≠ [] ∧ b ≠ [] ∧ c ≠ [] ∧
      (∀ x ∈ a, emailOk x = true) ∧ (∀ x ∈ b, emailOk x = true) ∧
      (∀ x ∈ c, emailOk x = true)

/-- The customer form fields (strings as character lists). -/
structure CustomerInfo where
  name : List Char
  email : List Char
  phone : List Char
  address : List Char
  notes : List Char
  deriving DecidableEq, Repr

/-- `validateCustomerInfo` (lines 252–287): accumulate field errors and
return whether none was recorded.  The stored error-message state
(`setFormErrors`) has no bearing on the claims and is returned only as the
list built here. -/
def customerInfoErrors (info : CustomerInfo) : List (String × String) :=
  (if (trimChars info.name).isEmpty then [("name", "Name is required")]
   else if (trimChars info.name).length < 2 then
     [("name", "Name must be at least 2 characters")]
   else [])
  ++ (if (trimChars info.email).isEmpty then [("email", "Email is required")]
      else if !(emailRegexTest info.email) then
        [("email", "Please enter a valid email address")]
      else [])
  ++ (if (trimChars info.phone).isEmpty then [("phone", "Phone number is required")]
      else if (info.phone.filter Char.isDigit).length ≠ 10 then
        [("phone", "Please enter a valid 10-digit phone number")]
      else [])
  ++ (if (trimChars info.address).isEmpty then [("address", "Service address is required")]
      else if (trimChars info.address).length < 10 then
        [("address", "Please enter a complete address")]
      else [])

def validateCustomerInfo (info : CustomerInfo) : Bool :=
  (customerInfoErrors info).isEmpty

/-- The form's component state, restricted to the fields `handleContinue`
and `handleSubmitBooking` read. -/
structure FormState where
  currentStep : Nat
  selectedService : Option String
  selectedAddOns : List String
  selectedDate : Option String
  selectedTimeSlot : Option TimeSlotF
  customer : CustomerInfo
  deriving DecidableEq, Repr

/-- `handleContinue` (lines 289–299): advance step 1 on a selected service,
step 2 on a selected date and time slot, and step 3 only when
`validateCustomerInfo` passes. -/
def handleContinue (st : FormState) : FormState :=
  if st.currentStep = 1 ∧ st.selectedService.isSome then
    { st with currentStep := 2 }
  else if st.currentStep = 2 ∧ st.selectedDate.isSome ∧ st.selectedTimeSlot.isSome then
    { st with currentStep := 3 }
  else if st.currentStep = 3 then
    if validateCustomerInfo st.customer then { st with currentStep := 4 } else st
  else st

/-- The request body `handleSubmitBooking` posts (lines 315–325). -/
structure BookingRequestData where
  serviceId : String
  addOnIds : List String
  startAtUtc : String
  endAtUtc : String
  customerName : List Char
  email : List Char
  phone : List Char
  address : List Char
  notes : Option (List Char)
  deriving DecidableEq, Repr

/-- `handleSubmitBooking`'s request construction (lines 305–325): `none`
when a required selection is missing (the early-return error path),
otherwise the posted `bookingData` with trimmed contact fields and
`notes || undefined`. -/
def bookingData (st : FormState) : Option BookingRequestData :=
  match st.selectedService, st.selectedTimeSlot, st.selectedDate with
  | some sid, some slot, some _ =>
    some
      { serviceId := sid
        addOnIds := st.selectedAddOns
        startAtUtc := slot.startUtc
        endAtUtc := slot.endUtc
        customerName := trimChars st.customer.name
        email := trimChars st.customer.email
        phone := trimChars st.customer.phone
        address := trimChars st.customer.address
        notes :=
          if (trimChars st.customer.notes).isEmpty then none
          else some (trimChars st.customer.notes) }
  | _, _, _ => none

end Frontend

namespace Confirmation

/-- `totalPrice = booking.priceCents / 100`
(`src/src/app/booking-confirmation/page.tsx` line 97), reading only the
stored booking record. -/
def totalPrice (b : Engine.Booking) : ℚ :=
  (b.priceCents : ℚ) / 100

end Confirmation

namespace Engine

/-- Modelled from the spec: catalog management's price update (out-of-scope
collaborator, §3/§6) — it rewrites the priced service in the catalog and
touches nothing else. -/
def setServicePrice (c : Catalog) (sid : String) (newPriceCents : Nat) : Catalog :=
  { c with
    services := c.services.map (fun s =>
      if s.id == sid then { s with priceCents := newPriceCents } else s) }

/-- Modelled from the spec: catalog management's add-on price update
(out-of-scope collaborator, §3/§6) — it rewrites the priced add-on in the
catalog and touches nothing else. -/
def setAddOnPrice (c : Catalog) (aid : String) (newPriceCents : Nat) : Catalog :=
  { c with
    addOns := c.addOns.map (fun a =>
      if a.id == aid then { a with priceCents := newPriceCents } else a) }

/-- Process-wide state: the read-mostly catalog and the booking store
(§3's ownership note). -/
structure SystemState where
  catalog : Catalog
  store : StoreState
  deriving DecidableEq, Repr

/-- A catalog price change applied to the system state. -/
def updateServicePrice (sys : SystemState) (sid : String) (newPriceCents : Nat) :
    SystemState :=
  { sys with catalog := setServicePrice sys.catalog sid newPriceCents }

/-- An add-on catalog price change applied to the system state. -/
def updateAddOnPrice (sys : SystemState) (aid : String) (newPriceCents : Nat) :
    SystemState :=
  { sys with catalog := setAddOnPrice sys.catalog aid newPriceCents }

/-- Modelled from the spec: the booking lookup interface (§6) feeding the
confirmation page — fetch by id, then display the stored price. -/
def displayedTotalPrice (sys : SystemState) (bookingId : Nat) : Option ℚ :=
  (sys.store.bookings.find? (fun b => b.id == bookingId)).map Confirmation.totalPrice

end Engine

/-! ## Theorems -/

theorem generateAvailableDates_map_date (fMD fWD : Nat → String) (today : Nat) :
    (Frontend.generateAvailableDates fMD fWD today).map Frontend.DateEntry.date
      = (List.range 30).map (fun i => today + (i + 1)) := by
  simp [Frontend.generateAvailableDates]

/-- C9: for every value of today's date, the date picker's
`generateAvailableDates` returns exactly 30 entries — the calendar days at
offsets 1 through 30 from today, in ascending order — and never offers
today's own date. -/
theorem generateAvailableDates_spec (fMD fWD : Nat → String) (today : Nat) :
    (Frontend.generateAvailableDates fMD fWD today).length = 30 ∧
    (Frontend.generateAvailableDates fMD fWD today).map Frontend.DateEntry.date
      = (List.range 30).map (fun i => today + (i + 1)) ∧
    ((Frontend.generateAvailableDates fMD fWD today).map
      Frontend.DateEntry.date).Pairwise (· < ·) ∧
    today ∉ (Frontend.generateAvailableDates fMD fWD today).map
      Frontend.DateEntry.date := by
  refine ⟨by simp [Frontend.generateAvailableDates],
    generateAvailableDates_map_date fMD fWD today, ?_, ?_⟩
  · rw [generateAvailableDates_map_date, List.pairwise_map]
    exact (List.pairwise_lt_range 30).imp (fun h => by omega)
  · rw [generateAvailableDates_map_date]
    simp

theorem handleAddOnToggle_nodup (addonId : String) (prev : List String)
    (h : prev.Nodup) : (Frontend.handleAddOnToggle addonId prev).Nodup := by
  unfold Frontend.handleAddOnToggle
  split
  · exact h.filter _
  · next hni => simp [List.nodup_append, h, hni]

theorem foldl_handleAddOnToggle_nodup (ops : List String) :
    ∀ sel : List String, sel.Nodup →
      (ops.foldl (fun sel id => Frontend.handleAddOnToggle id sel) sel).Nodup := by
  induction ops with
  | nil => intro sel h; exact h
  | cons op ops ih =>
    intro sel h
    exact ih _ (handleAddOnToggle_nodup op sel h)

/-- C7: starting from the empty selection, any sequence of add-on toggles
leaves the selected list duplicate-free; toggling a present id removes
exactly that id, toggling an absent id appends it once; and the posted
`bookingData` carries the selected list verbatim as its `addOnIds`. -/
theorem addOnSelection_no_duplicates :
    (∀ ops : List String,
      (ops.foldl (fun sel id => Frontend.handleAddOnToggle id sel) []).Nodup) ∧
    (∀ (prev : List String) (addonId : String), addonId ∈ prev →
      addonId ∉ Frontend.handleAddOnToggle addonId prev ∧
      ∀ j, j ≠ addonId →
        (j ∈ Frontend.handleAddOnToggle addonId prev ↔ j ∈ prev)) ∧
    (∀ (prev : List String) (addonId : String), addonId ∉ prev →
      Frontend.handleAddOnToggle addonId prev = prev ++ [addonId]) ∧
    (∀ (st : Frontend.FormState) (d : Frontend.BookingRequestData),
      Frontend.bookingData st = some d → d.addOnIds = st.selectedAddOns) := by
  refine ⟨fun ops => foldl_handleAddOnToggle_nodup ops [] List.nodup_nil, ?_, ?_, ?_⟩
  · intro prev addonId hmem
    refine ⟨?_, ?_⟩
    · simp [Frontend.handleAddOnToggle, hmem]
    · intro j hj
      simp [Frontend.handleAddOnToggle, hmem, List.mem_filter, hj]
  · intro prev addonId hmem
    simp [Frontend.handleAddOnToggle, hmem]
  · intro st d h
    unfold Frontend.bookingData at h
    split at h
    · next sid slot date hsvc hslot hdate =>
      cases h
      rfl
    · cases h

/-- C8: the availability computation is idempotent as a query — two calls
whose inputs (date policy, requested duration, booking set) are equal, with
no intervening writes, return identical ordered slot lists; in this
embedding `computeSlots` is a pure function of those inputs. -/
theorem computeSlots_idempotent (p₁ p₂ : Engine.CalendarPolicy) (d₁ d₂ : Nat)
    (bs₁ bs₂ : List Engine.Booking)
    (hp : p₁ = p₂) (hd : d₁ = d₂) (hb : bs₁ = bs₂) :
    Engine.computeSlots p₁ d₁ bs₁ = Engine.computeSlots p₂ d₂ bs₂ := by
  rw [hp, hd, hb]

theorem computeSlots_idempotent_witness :
    Engine.computeSlots ⟨540, 1020, 30, 15, 0⟩ 90 []
      = Engine.computeSlots ⟨540, 1020, 30, 15, 0⟩ 90 [] :=
  computeSlots_idempotent _ _ _ _ _ _ rfl rfl rfl

theorem foldl_add_lookup_eq_sum {M : Type} [AddCommMonoid M] (f : String → M) :
    ∀ (l : List String) (init : M),
      l.foldl (fun t i => t + f i) init = init + (l.map f).sum := by
  intro l
  induction l with
  | nil => intro init; simp
  | cons hd tl ih =>
    intro init
    rw [List.foldl_cons, ih, List.map_cons, List.sum_cons, add_assoc]

theorem addOnsTotal_eq_sum (addOns : List Frontend.AddOn)
    (resolved : List Frontend.AddOn)
    (hres : ∀ a ∈ resolved,
      addOns.find? (fun x => x.id == a.id) = some a) :
    Frontend.addOnsTotal addOns (resolved.map Frontend.AddOn.id)
      = (resolved.map Frontend.AddOn.price).sum := by
  unfold Frontend.addOnsTotal
  rw [foldl_add_lookup_eq_sum, zero_add, List.map_map]
  congr 1
  refine List.map_congr_left ?_
  intro a ha
  simp [Function.comp, hres a ha]

theorem addOnsDuration_eq_sum (addOns : List Frontend.AddOn)
    (resolved : List Frontend.AddOn)
    (hres : ∀ a ∈ resolved,
      addOns.find? (fun x => x.id == a.id) = some a) :
    Frontend.addOnsDuration addOns (resolved.map Frontend.AddOn.id)
      = (resolved.map Frontend.AddOn.duration).sum := by
  unfold Frontend.addOnsDuration
  rw [foldl_add_lookup_eq_sum, zero_add, List.map_map]
  congr 1
  refine List.map_congr_left ?_
  intro a ha
  simp [Function.comp, hres a ha]

/-- C4: when the selected service and every selected add-on id resolve in
the catalog, the computed totals are the service's duration plus the sum of
the selected add-ons' durations, and the service's price plus the sum of
their prices. -/
theorem bookingTotals_spec (services : List Frontend.Service)
    (addOns : List Frontend.AddOn) (sid : String) (svc : Frontend.Service)
    (resolved : List Frontend.AddOn)
    (hsvc : services.find? (fun s => s.id == sid) = some svc)
    (hres : ∀ a ∈ resolved,
      addOns.find? (fun x => x.id == a.id) = some a) :
    Frontend.totalDuration services addOns (some sid) (resolved.map Frontend.AddOn.id)
        = svc.duration + (resolved.map Frontend.AddOn.duration).sum ∧
    Frontend.grandTotal services addOns (some sid) (resolved.map Frontend.AddOn.id)
        = svc.price + (resolved.map Frontend.AddOn.price).sum := by
  constructor
  · unfold Frontend.totalDuration Frontend.serviceDuration Frontend.selectedServiceData
    rw [addOnsDuration_eq_sum addOns resolved hres]
    simp [hsvc]
  · unfold Frontend.grandTotal Frontend.servicePrice Frontend.selectedServiceData
    rw [addOnsTotal_eq_sum addOns resolved hres]
    simp [hsvc]

theorem bookingTotals_spec_witness :
    (Frontend.totalDuration
        [⟨"premium", "Premium Detail", 29999/100, 180, [], true⟩]
        [⟨"pet-hair", "Pet Hair Removal", 4999/100, 30⟩,
         ⟨"engine-bay", "Engine Bay Cleaning", 3999/100, 20⟩]
        (some "premium") ["pet-hair", "engine-bay"] = 180 + (30 + 20)) ∧
    (Frontend.grandTotal
        [⟨"premium", "Premium Detail", 29999/100, 180, [], true⟩]
        [⟨"pet-hair", "Pet Hair Removal", 4999/100, 30⟩,
         ⟨"engine-bay", "Engine Bay Cleaning", 3999/100, 20⟩]
        (some "premium") ["pet-hair", "engine-bay"]
      = 29999/100 + (4999/100 + 3999/100)) := by
  have h := bookingTotals_spec
    [⟨"premium", "Premium Detail", 29999/100, 180, [], true⟩]
    [⟨"pet-hair", "Pet Hair Removal", 4999/100, 30⟩,
     ⟨"engine-bay", "Engine Bay Cleaning", 3999/100, 20⟩]
    "premium" ⟨"premium", "Premium Detail", 29999/100, 180, [], true⟩
    [⟨"pet-hair", "Pet Hair Removal", 4999/100, 30⟩,
     ⟨"engine-bay", "Engine Bay Cleaning", 3999/100, 20⟩]
    rfl (by intro a ha; fin_cases ha <;> rfl)
  simpa using h

theorem findService_setServicePrice (c : Engine.Catalog) (sid : String)
    (np : Nat) (svc : Engine.Service)
    (hfind : Engine.findService c sid = some svc) :
    Engine.findService (Engine.setServicePrice c sid np) sid
      = some { svc with priceCents := np } := by
  unfold Engine.findService at hfind ⊢
  unfold Engine.setServicePrice
  simp only
  rw [List.find?_map]
  have hp : (fun s : Engine.Service => s.id == sid) ∘
      (fun s : Engine.Service => if s.id == sid then { s with priceCents := np } else s)
      = fun s : Engine.Service => s.id == sid := by
    funext s
    by_cases h : s.id = sid <;> simp [Function.comp, h]
  rw [hp, hfind]
  have h2 : svc.id = sid := by simpa using List.find?_some hfind
  simp [h2]

theorem findAddOn_setAddOnPrice (c : Engine.Catalog) (aid : String)
    (np : Nat) (ao : Engine.AddOn)
    (hfind : Engine.findAddOn c aid = some ao) :
    Engine.findAddOn (Engine.setAddOnPrice c aid np) aid
      = some { ao with priceCents := np } := by
  unfold Engine.findAddOn at hfind ⊢
  unfold Engine.setAddOnPrice
  simp only
  rw [List.find?_map]
  have hp : (fun a : Engine.AddOn => a.id == aid) ∘
      (fun a : Engine.AddOn => if a.id == aid then { a with priceCents := np } else a)
      = fun a : Engine.AddOn => a.id == aid := by
    funext a
    by_cases h : a.id = aid <;> simp [Function.comp, h]
  rw [hp, hfind]
  have h2 : ao.id = aid := by simpa using List.find?_some hfind
  simp [h2]

/-- C6: changing a service's — or an add-on's — catalog price after a
booking exists rewrites the respective catalog entry but leaves the booking
store — and with it every stored `priceCents` and the confirmation page's
displayed total, which is read from the stored record rather than
recomputed from the catalog — unchanged. -/
theorem storedPriceFrozen_spec (sys : Engine.SystemState) (sid aid : String)
    (np npA : Nat) (svc : Engine.Service) (ao : Engine.AddOn)
    (hfind : Engine.findService sys.catalog sid = some svc)
    (hfindA : Engine.findAddOn sys.catalog aid = some ao) :
    Engine.findService (Engine.updateServicePrice sys sid np).catalog sid
        = some { svc with priceCents := np } ∧
    Engine.findAddOn (Engine.updateAddOnPrice sys aid npA).catalog aid
        = some { ao with priceCents := npA } ∧
    (Engine.updateServicePrice sys sid np).store = sys.store ∧
    (Engine.updateAddOnPrice sys aid npA).store = sys.store ∧
    (∀ bookingId,
      Engine.displayedTotalPrice (Engine.updateServicePrice sys sid np) bookingId
        = Engine.displayedTotalPrice sys bookingId) ∧
    (∀ bookingId,
      Engine.displayedTotalPrice (Engine.updateAddOnPrice sys aid npA) bookingId
        = Engine.displayedTotalPrice sys bookingId) := by
  refine ⟨findService_setServicePrice sys.catalog sid np svc hfind,
    findAddOn_setAddOnPrice sys.catalog aid npA ao hfindA,
    rfl, rfl, fun _ => rfl, fun _ => rfl⟩

theorem storedPriceFrozen_spec_witness :
    (Engine.findService
        (Engine.updateServicePrice
          ⟨⟨[⟨"basic", "Basic Wash", 60, 4999⟩],
              [⟨"pet-hair", "Pet Hair Removal", 30, 2999⟩]⟩,
            ⟨[⟨1, "basic", ["pet-hair"], 600, 690, 7998, .confirmed⟩], 2⟩⟩
          "basic" 5999).catalog "basic"
      = some ⟨"basic", "Basic Wash", 60, 5999⟩) ∧
    (Engine.findAddOn
        (Engine.updateAddOnPrice
          ⟨⟨[⟨"basic", "Basic Wash", 60, 4999⟩],
              [⟨"pet-hair", "Pet Hair Removal", 30, 2999⟩]⟩,
            ⟨[⟨1, "basic", ["pet-hair"], 600, 690, 7998, .confirmed⟩], 2⟩⟩
          "pet-hair" 3499).catalog "pet-hair"
      = some ⟨"pet-hair", "Pet Hair Removal", 30, 3499⟩) ∧
    ((Engine.updateServicePrice
        ⟨⟨[⟨"basic", "Basic Wash", 60, 4999⟩],
            [⟨"pet-hair", "Pet Hair Removal", 30, 2999⟩]⟩,
          ⟨[⟨1, "basic", ["pet-hair"], 600, 690, 7998, .confirmed⟩], 2⟩⟩
        "basic" 5999).store
      = ⟨[⟨1, "basic", ["pet-hair"], 600, 690, 7998, .confirmed⟩], 2⟩) ∧
    ((Engine.updateAddOnPrice
        ⟨⟨[⟨"basic", "Basic Wash", 60, 4999⟩],
            [⟨"pet-hair", "Pet Hair Removal", 30, 2999⟩]⟩,
          ⟨[⟨1, "basic", ["pet-hair"], 600, 690, 7998, .confirmed⟩], 2⟩⟩
        "pet-hair" 3499).store
      = ⟨[⟨1, "basic", ["pet-hair"], 600, 690, 7998, .confirmed⟩], 2⟩) ∧
    (∀ bookingId,
      Engine.displayedTotalPrice
          (Engine.updateServicePrice
            ⟨⟨[⟨"basic", "Basic Wash", 60, 4999⟩],
                [⟨"pet-hair", "Pet Hair Removal", 30, 2999⟩]⟩,
              ⟨[⟨1, "basic", ["pet-hair"], 600, 690, 7998, .confirmed⟩], 2⟩⟩
            "basic" 5999) bookingId
        = Engine.displayedTotalPrice
            ⟨⟨[⟨"basic", "Basic Wash", 60, 4999⟩],
                [⟨"pet-hair", "Pet Hair Removal", 30, 2999⟩]⟩,
              ⟨[⟨1, "basic", ["pet-hair"], 600, 690, 7998, .confirmed⟩], 2⟩⟩
            bookingId) ∧
    (∀ bookingId,
      Engine.displayedTotalPrice
          (Engine.updateAddOnPrice
            ⟨⟨[⟨"basic", "Basic Wash", 60, 4999⟩],
                [⟨"pet-hair", "Pet Hair Removal", 30, 2999⟩]⟩,
              ⟨[⟨1, "basic", ["pet-hair"], 600, 690, 7998, .confirmed⟩], 2⟩⟩
            "pet-hair" 3499) bookingId
        = Engine.displayedTotalPrice
            ⟨⟨[⟨"basic", "Basic Wash", 60, 4999⟩],
                [⟨"pet-hair", "Pet Hair Removal", 30, 2999⟩]⟩,
              ⟨[⟨1, "basic", ["pet-hair"], 600, 690, 7998, .confirmed⟩], 2⟩⟩
            bookingId) :=
  storedPriceFrozen_spec
    ⟨⟨[⟨"basic", "Basic Wash", 60, 4999⟩],
        [⟨"pet-hair", "Pet Hair Removal", 30, 2999⟩]⟩,
      ⟨[⟨1, "basic", ["pet-hair"], 600, 690, 7998, .confirmed⟩], 2⟩⟩
    "basic" "pet-hair" 5999 3499
    ⟨"basic", "Basic Wash", 60, 4999⟩
    ⟨"pet-hair", "Pet Hair Removal", 30, 2999⟩ rfl rfl

/-- C5 counterexample: with a 90-minute service, a 15-minute buffer policy
and a 10:00 (600-minute) start, the committed booking ends at 690
(`startAtUtc + totalDuration`), not at 705 as §3's
"start + sum of durations + policy buffer" derivation would require. -/
theorem reserve_endAtUtc_counterexample :
    (Engine.reserve ⟨[⟨"premium", "Premium Detail", 90, 14999⟩], []⟩
        ⟨540, 1020, 30, 15, 0⟩ ⟨"premium", [], 600⟩ ⟨[], 1⟩).1
      = .booked ⟨1, "premium", [], 600, 690, 14999, .confirmed⟩ ∧
    (690 : Nat) ≠ 600 + 90 + 15 := by
  exact ⟨rfl, by decide⟩

/-- C5 (amended): a successful reservation persists
`endAtUtc = startAtUtc + totalDuration` (the service duration plus the sum
of the selected add-ons' durations); the policy's inter-job buffer enters
only the overlap check, not the stored end instant, so §3's extra buffer
term does not appear. -/
theorem reserve_endAtUtc_spec (c : Engine.Catalog) (p : Engine.CalendarPolicy)
    (req : Engine.BookingRequest) (st : Engine.StoreState)
    (svc : Engine.Service) (adds : List Engine.AddOn) (b : Engine.Booking)
    (st' : Engine.StoreState)
    (hsvc : Engine.findService c req.serviceId = some svc)
    (hadds : Engine.resolveAddOns c req.addOnIds = some adds)
    (h : Engine.reserve c p req st = (.booked b, st')) :
    b.startAtUtc = req.startAtUtc ∧
    b.endAtUtc = req.startAtUtc +
      (svc.duration + (adds.map Engine.AddOn.duration).sum) ∧
    b.priceCents = svc.priceCents + (adds.map Engine.AddOn.priceCents).sum := by
  unfold Engine.reserve at h
  rw [hsvc, hadds] at h
  simp only at h
  split at h
  · cases h
  · split at h
    · cases h
    · rw [Prod.mk.injEq] at h
      obtain ⟨h1, h2⟩ := h
      cases h1
      exact ⟨rfl, rfl, rfl⟩

theorem reserve_endAtUtc_spec_witness :
    ∃ b : Engine.Booking,
      Engine.reserve ⟨[⟨"premium", "Premium Detail", 90, 14999⟩],
            [⟨"pet-hair", "Pet Hair Removal", 30, 4999⟩]⟩
          ⟨540, 1020, 30, 15, 0⟩ ⟨"premium", ["pet-hair"], 600⟩ ⟨[], 1⟩
        = (.booked b, ⟨[b], 2⟩) ∧
      b.startAtUtc = 600 ∧ b.endAtUtc = 600 + (90 + 30) ∧
      b.priceCents = 14999 + 4999 := by
  refine ⟨⟨1, "premium", ["pet-hair"], 600, 720, 19998, .confirmed⟩, rfl, ?_⟩
  have h := reserve_endAtUtc_spec
    ⟨[⟨"premium", "Premium Detail", 90, 14999⟩],
      [⟨"pet-hair", "Pet Hair Removal", 30, 4999⟩]⟩
    ⟨540, 1020, 30, 15, 0⟩ ⟨"premium", ["pet-hair"], 600⟩ ⟨[], 1⟩
    ⟨"premium", "Premium Detail", 90, 14999⟩
    [⟨"pet-hair", "Pet Hair Removal", 30, 4999⟩]
    ⟨1, "premium", ["pet-hair"], 600, 720, 19998, .confirmed⟩
    ⟨[⟨1, "premium", ["pet-hair"], 600, 720, 19998, .confirmed⟩], 2⟩
    rfl rfl rfl
  exact h

theorem mem_computeSlots_iff (p : Engine.CalendarPolicy) (dur : Nat)
    (bs : List Engine.Booking) (s : Nat) :
    (⟨s, s + dur⟩ : Engine.TimeSlot) ∈ Engine.computeSlots p dur bs ↔
      s ∈ Engine.candidateStarts p ∧ s + dur ≤ p.closeMin ∧
        Engine.hasConflict p.bufferMin s (s + dur) bs = false := by
  unfold Engine.computeSlots
  simp only [List.mem_map, List.mem_filter, Engine.TimeSlot.mk.injEq,
    Bool.and_eq_true, decide_eq_true_eq, Bool.not_eq_true']
  constructor
  · rintro ⟨x, ⟨hxc, hfit, hcf⟩, rfl, -⟩
    exact ⟨hxc, hfit, hcf⟩
  · rintro ⟨hc, hfit, hcf⟩
    exact ⟨s, ⟨hc, hfit, hcf⟩, rfl, rfl⟩

theorem hasConflict_eq_false_iff (buf s e : Nat) (bs : List Engine.Booking) :
    Engine.hasConflict buf s e bs = false ↔
      ∀ b ∈ bs, b.status = .confirmed →
        ¬(s < b.endAtUtc + buf ∧ b.startAtUtc < e + buf) := by
  unfold Engine.hasConflict Engine.conflictsWith
  rw [List.any_eq_false]
  constructor
  · intro h b hb hconf hlt
    exact h b hb (by simp [hconf, hlt.1, hlt.2])
  · intro h b hb
    simp only [Bool.and_eq_true, beq_iff_eq, decide_eq_true_eq]
    rintro ⟨⟨hconf, h1⟩, h2⟩
    exact h b hb hconf ⟨h1, h2⟩

/-- C3: every emitted slot ends exactly `duration` after its start and no
later than the close time; a generated candidate on an otherwise-empty day
survives iff its end is at most the close time (an end equal to close is
kept); and on the 9:00–17:00, 30-minute-granularity, 15-minute-buffer
policy with no bookings and a 90-minute request, the first emitted slot is
09:00–10:30, the last is 15:30–17:00, and no emitted slot starts at 15:45. -/
theorem computeSlots_close_boundary :
    (∀ (p : Engine.CalendarPolicy) (dur : Nat) (bs : List Engine.Booking)
        (t : Engine.TimeSlot), t ∈ Engine.computeSlots p dur bs →
          t.stop ≤ p.closeMin ∧ t.stop = t.start + dur) ∧
    (∀ (p : Engine.CalendarPolicy) (dur s : Nat), s ∈ Engine.candidateStarts p →
        ((⟨s, s + dur⟩ : Engine.TimeSlot) ∈ Engine.computeSlots p dur [] ↔
          s + dur ≤ p.closeMin)) ∧
    (Engine.computeSlots ⟨540, 1020, 30, 15, 0⟩ 90 []).head? = some ⟨540, 630⟩ ∧
    (Engine.computeSlots ⟨540, 1020, 30, 15, 0⟩ 90 []).getLast? = some ⟨930, 1020⟩ ∧
    (∀ t ∈ Engine.computeSlots ⟨540, 1020, 30, 15, 0⟩ 90 [], t.start ≠ 945) := by
  refine ⟨?_, ?_, by decide, by decide, by decide⟩
  · intro p dur bs t ht
    unfold Engine.computeSlots at ht
    simp only [List.mem_map, List.mem_filter, Bool.and_eq_true,
      decide_eq_true_eq, Bool.not_eq_true'] at ht
    obtain ⟨x, ⟨-, hfit, -⟩, rfl⟩ := ht
    exact ⟨hfit, rfl⟩
  · intro p dur s hc
    rw [mem_computeSlots_iff]
    simp [hc, Engine.hasConflict]

/-- C2: a generated candidate start that fits the operating window survives
into `computeSlots` iff the interval `[s, s + dur)` intersects no Confirmed
booking's interval expanded by the inter-job buffer on both sides
(intervals over ℤ, so the expansion needs no truncation); touching
intervals are permitted since the intervals are half-open. -/
theorem computeSlots_bookable_iff (p : Engine.CalendarPolicy) (dur : Nat)
    (bs : List Engine.Booking) (s : Nat)
    (hdur : 0 < dur)
    (hwf : ∀ b ∈ bs, b.startAtUtc < b.endAtUtc)
    (hcand : s ∈ Engine.candidateStarts p)
    (hfit : s + dur ≤ p.closeMin) :
    (⟨s, s + dur⟩ : Engine.TimeSlot) ∈ Engine.computeSlots p dur bs ↔
      ∀ b ∈ bs, b.status = .confirmed →
        Set.Ico (s : ℤ) ((s : ℤ) + dur) ∩
            Set.Ico ((b.startAtUtc : ℤ) - p.bufferMin)
              ((b.endAtUtc : ℤ) + p.bufferMin) = ∅ := by
  have key : ∀ b ∈ bs,
      (¬(s < b.endAtUtc + p.bufferMin ∧ b.startAtUtc < s + dur + p.bufferMin) ↔
        Set.Ico (s : ℤ) ((s : ℤ) + dur) ∩
            Set.Ico ((b.startAtUtc : ℤ) - p.bufferMin)
              ((b.endAtUtc : ℤ) + p.bufferMin) = ∅) := by
    intro b hb
    have hb' := hwf b hb
    rw [Set.Ico_inter_Ico, Set.Ico_eq_empty_iff, max_lt_iff, lt_min_iff, lt_min_iff]
    constructor
    · intro h h'
      exact h (by omega)
    · intro h h'
      exact h (by omega)
  rw [mem_computeSlots_iff, hasConflict_eq_false_iff]
  simp only [hcand, hfit, true_and]
  exact ⟨fun h b hb hc => (key b hb).mp (h b hb hc),
    fun h b hb hc => (key b hb).mpr (h b hb hc)⟩

theorem computeSlots_bookable_iff_witness :
    ((0 : Nat) < 60 ∧
      (∀ b ∈ [(⟨1, "basic", [], 600, 690, 4999, .confirmed⟩ : Engine.Booking)],
        b.startAtUtc < b.endAtUtc) ∧
      705 ∈ Engine.candidateStarts ⟨540, 1020, 15, 15, 0⟩ ∧
      705 + 60 ≤ (1020 : Nat)) ∧
    (((⟨705, 765⟩ : Engine.TimeSlot) ∈
        Engine.computeSlots ⟨540, 1020, 15, 15, 0⟩ 60
          [⟨1, "basic", [], 600, 690, 4999, .confirmed⟩]) ↔
      ∀ b ∈ [(⟨1, "basic", [], 600, 690, 4999, .confirmed⟩ : Engine.Booking)],
        b.status = .confirmed →
          Set.Ico (705 : ℤ) ((705 : ℤ) + 60) ∩
              Set.Ico ((b.startAtUtc : ℤ) - 15) ((b.endAtUtc : ℤ) + 15) = ∅) :=
  ⟨⟨by decide, by decide, by decide, by decide⟩,
    computeSlots_bookable_iff ⟨540, 1020, 15, 15, 0⟩ 60
      [⟨1, "basic", [], 600, 690, 4999, .confirmed⟩] 705
      (by decide) (by decide) (by decide) (by decide)⟩

theorem reqDuration_eq_some (c : Engine.Catalog) (r : Engine.BookingRequest)
    (d : Nat) :
    Engine.reqDuration c r = some d ↔
      ∃ svc adds, Engine.findService c r.serviceId = some svc ∧
        Engine.resolveAddOns c r.addOnIds = some adds ∧
        d = svc.duration + (adds.map Engine.AddOn.duration).sum := by
  unfold Engine.reqDuration
  cases hsvc : Engine.findService c r.serviceId with
  | none => simp
  | some svc =>
    cases hadds : Engine.resolveAddOns c r.addOnIds with
    | none => simp
    | some adds => simp [eq_comm]

theorem reserve_success (c : Engine.Catalog) (p : Engine.CalendarPolicy)
    (req : Engine.BookingRequest) (st : Engine.StoreState)
    (svc : Engine.Service) (adds : List Engine.AddOn)
    (hsvc : Engine.findService c req.serviceId = some svc)
    (hadds : Engine.resolveAddOns c req.addOnIds = some adds)
    (hok : Engine.hasConflict p.bufferMin req.startAtUtc
      (req.startAtUtc + (svc.duration + (adds.map Engine.AddOn.duration).sum))
      st.bookings = false)
    (h1 : p.openMin ≤ req.startAtUtc)
    (h2 : req.startAtUtc + (svc.duration + (adds.map Engine.AddOn.duration).sum)
      ≤ p.closeMin)
    (h3 : p.leadStartMin ≤ req.startAtUtc) :
    Engine.reserve c p req st =
      (.booked ⟨st.nextId, req.serviceId, req.addOnIds, req.startAtUtc,
          req.startAtUtc + (svc.duration + (adds.map Engine.AddOn.duration).sum),
          svc.priceCents + (adds.map Engine.AddOn.priceCents).sum, .confirmed⟩,
        ⟨⟨st.nextId, req.serviceId, req.addOnIds, req.startAtUtc,
            req.startAtUtc + (svc.duration + (adds.map Engine.AddOn.duration).sum),
            svc.priceCents + (adds.map Engine.AddOn.priceCents).sum, .confirmed⟩
          :: st.bookings,
          st.nextId + 1⟩) := by
  unfold Engine.reserve
  rw [hsvc, hadds]
  simp [hok, h1, h2, h3]

theorem reserve_blocked (c : Engine.Catalog) (p : Engine.CalendarPolicy)
    (req : Engine.BookingRequest) (st : Engine.StoreState)
    (svc : Engine.Service) (adds : List Engine.AddOn) (b : Engine.Booking)
    (hsvc : Engine.findService c req.serviceId = some svc)
    (hadds : Engine.resolveAddOns c req.addOnIds = some adds)
    (hb : b ∈ st.bookings) (hconf : b.status = .confirmed)
    (hlt1 : req.startAtUtc < b.endAtUtc + p.bufferMin)
    (hlt2 : b.startAtUtc < req.startAtUtc +
      (svc.duration + (adds.map Engine.AddOn.duration).sum) + p.bufferMin) :
    Engine.reserve c p req st = (.rejected .slotNoLongerAvailable, st) := by
  unfold Engine.reserve
  rw [hsvc, hadds]
  have hcf : Engine.hasConflict p.bufferMin req.startAtUtc
      (req.startAtUtc + (svc.duration + (adds.map Engine.AddOn.duration).sum))
      st.bookings = true := by
    unfold Engine.hasConflict
    rw [List.any_eq_true]
    exact ⟨b, hb, by simp [Engine.conflictsWith, hconf, hlt1, hlt2]⟩
  simp [hcf]

theorem reserve_preserves_invariant (c : Engine.Catalog)
    (p : Engine.CalendarPolicy) (req : Engine.BookingRequest)
    (st : Engine.StoreState)
    (hinv : Engine.CalendarInvariant p.bufferMin st.bookings) :
    Engine.CalendarInvariant p.bufferMin
      (Engine.reserve c p req st).2.bookings := by
  unfold Engine.reserve
  cases hsvc : Engine.findService c req.serviceId with
  | none => exact hinv
  | some svc =>
    cases hadds : Engine.resolveAddOns c req.addOnIds with
    | none => exact hinv
    | some adds =>
      simp only
      split
      · exact hinv
      · split
        · exact hinv
        · next hcf _ =>
          have hcf' : Engine.hasConflict p.bufferMin req.startAtUtc
              (req.startAtUtc + (svc.duration + (adds.map Engine.AddOn.duration).sum))
              st.bookings = false := by
            cases hval : Engine.hasConflict p.bufferMin req.startAtUtc
                (req.startAtUtc + (svc.duration + (adds.map Engine.AddOn.duration).sum))
                st.bookings
            · rfl
            · exact absurd hval hcf
          rw [hasConflict_eq_false_iff] at hcf'
          unfold Engine.CalendarInvariant at hinv ⊢
          refine List.Pairwise.cons ?_ hinv
          intro b hb _ hbconf
          exact hcf' b hb hbconf

theorem processAll_blocked (c : Engine.Catalog) (p : Engine.CalendarPolicy)
    (rs : List Engine.BookingRequest) (st : Engine.StoreState)
    (b : Engine.Booking) (hb : b ∈ st.bookings) (hconf : b.status = .confirmed)
    (hres : ∀ q ∈ rs, (Engine.reqDuration c q).isSome = true)
    (hov : ∀ q ∈ rs, ∀ d, Engine.reqDuration c q = some d →
      q.startAtUtc < b.endAtUtc + p.bufferMin ∧
        b.startAtUtc < q.startAtUtc + d + p.bufferMin) :
    Engine.processAll c p rs st
      = (rs.map (fun _ => .rejected .slotNoLongerAvailable), st) := by
  induction rs with
  | nil => rfl
  | cons q qs ih =>
    have hq := hres q (List.mem_cons_self q qs)
    obtain ⟨d, hd⟩ := Option.isSome_iff_exists.mp hq
    obtain ⟨svc, adds, hsvc, hadds, hdval⟩ := (reqDuration_eq_some c q d).mp hd
    subst hdval
    have hqov := hov q (List.mem_cons_self q qs) _ hd
    have hblock := reserve_blocked c p q st svc adds b hsvc hadds hb hconf
      hqov.1 (by omega)
    have hstep : Engine.processAll c p (q :: qs) st
        = ((Engine.reserve c p q st).1
            :: (Engine.processAll c p qs (Engine.reserve c p q st).2).1,
          (Engine.processAll c p qs (Engine.reserve c p q st).2).2) := rfl
    rw [hstep, hblock]
    simp only
    rw [ih (fun q' hq' => hres q' (List.mem_cons_of_mem _ hq'))
      (fun q' hq' => hov q' (List.mem_cons_of_mem _ hq'))]
    rfl

theorem processAll_preserves_invariant (c : Engine.Catalog)
    (p : Engine.CalendarPolicy) (reqs : List Engine.BookingRequest) :
    ∀ st : Engine.StoreState, Engine.CalendarInvariant p.bufferMin st.bookings →
      Engine.CalendarInvariant p.bufferMin
        ((Engine.processAll c p reqs st).2.bookings) := by
  induction reqs with
  | nil => intro st h; exact h
  | cons r rs ih =>
    intro st h
    exact ih _ (reserve_preserves_invariant c p r st h)

/-- C1: under §5's requirement that overlap-check and commit form one
atomic unit, any serialization of N concurrent `reserve` calls whose
requested intervals pairwise overlap, against a calendar that is free of
conflicts with each of them, books exactly the first call in the
serialization — every other call is rejected with `SlotNoLongerAvailable` —
and §3's buffered non-overlap invariant for Confirmed bookings holds in the
store after every intermediate commit. -/
theorem reserve_race_exclusion (c : Engine.Catalog) (p : Engine.CalendarPolicy)
    (st : Engine.StoreState) (r : Engine.BookingRequest)
    (rs : List Engine.BookingRequest)
    (hinv : Engine.CalendarInvariant p.bufferMin st.bookings)
    (hres : ∀ q ∈ r :: rs, (Engine.reqDuration c q).isSome = true)
    (hvalid : ∀ q ∈ r :: rs, ∀ d, Engine.reqDuration c q = some d →
      p.openMin ≤ q.startAtUtc ∧ q.startAtUtc + d ≤ p.closeMin ∧
        p.leadStartMin ≤ q.startAtUtc)
    (hfree : ∀ q ∈ r :: rs, ∀ d, Engine.reqDuration c q = some d →
      Engine.hasConflict p.bufferMin q.startAtUtc (q.startAtUtc + d)
        st.bookings = false)
    (hover : ∀ q ∈ rs, ∀ d d', Engine.reqDuration c r = some d →
      Engine.reqDuration c q = some d' →
      r.startAtUtc < q.startAtUtc + d' ∧ q.startAtUtc < r.startAtUtc + d) :
    (∃ b : Engine.Booking, b.status = .confirmed ∧
      (Engine.processAll c p (r :: rs) st).1 =
        .booked b :: rs.map (fun _ => .rejected .slotNoLongerAvailable)) ∧
    ∀ n, Engine.CalendarInvariant p.bufferMin
      ((Engine.processAll c p ((r :: rs).take n) st).2.bookings) := by
  constructor
  · have hr := hres r (List.mem_cons_self r rs)
    obtain ⟨d, hd⟩ := Option.isSome_iff_exists.mp hr
    obtain ⟨svc, adds, hsvc, hadds, hdval⟩ := (reqDuration_eq_some c r d).mp hd
    subst hdval
    have hv := hvalid r (List.mem_cons_self r rs) _ hd
    have hf := hfree r (List.mem_cons_self r rs) _ hd
    have hsucc := reserve_success c p r st svc adds hsvc hadds hf
      hv.1 hv.2.1 hv.2.2
    refine ⟨⟨st.nextId, r.serviceId, r.addOnIds, r.startAtUtc,
        r.startAtUtc + (svc.duration + (adds.map Engine.AddOn.duration).sum),
        svc.priceCents + (adds.map Engine.AddOn.priceCents).sum, .confirmed⟩,
      rfl, ?_⟩
    have hstep : Engine.processAll c p (r :: rs) st
        = ((Engine.reserve c p r st).1
            :: (Engine.processAll c p rs (Engine.reserve c p r st).2).1,
          (Engine.processAll c p rs (Engine.reserve c p r st).2).2) := rfl
    rw [hstep, hsucc]
    have hblocked := processAll_blocked c p rs
      ⟨⟨st.nextId, r.serviceId, r.addOnIds, r.startAtUtc,
          r.startAtUtc + (svc.duration + (adds.map Engine.AddOn.duration).sum),
          svc.priceCents + (adds.map Engine.AddOn.priceCents).sum, .confirmed⟩
        :: st.bookings, st.nextId + 1⟩
      ⟨st.nextId, r.serviceId, r.addOnIds, r.startAtUtc,
        r.startAtUtc + (svc.duration + (adds.map Engine.AddOn.duration).sum),
        svc.priceCents + (adds.map Engine.AddOn.priceCents).sum, .confirmed⟩
      (List.mem_cons_self _ _) rfl
      (fun q' hq' => hres q' (List.mem_cons_of_mem _ hq'))
      (fun q' hq' d' hd' => by
        have ho := hover q' hq' _ d' hd hd'
        refine ⟨?_, ?_⟩
        · show q'.startAtUtc <
            (r.startAtUtc + (svc.duration + (adds.map Engine.AddOn.duration).sum))
              + p.bufferMin
          omega
        · show r.startAtUtc < q'.startAtUtc + d' + p.bufferMin
          omega)
    rw [hblocked]
  · intro n
    exact processAll_preserves_invariant c p ((r :: rs).take n) st hinv

theorem reserve_race_exclusion_witness :
    (∃ b : Engine.Booking, b.status = .confirmed ∧
      (Engine.processAll ⟨[⟨"basic", "Basic Wash", 60, 4999⟩], []⟩
          ⟨540, 1020, 30, 15, 0⟩
          [⟨"basic", [], 600⟩, ⟨"basic", [], 600⟩] ⟨[], 1⟩).1 =
        .booked b :: [(⟨"basic", [], 600⟩ : Engine.BookingRequest)].map
          (fun _ => .rejected .slotNoLongerAvailable)) ∧
    ∀ n, Engine.CalendarInvariant 15
      ((Engine.processAll ⟨[⟨"basic", "Basic Wash", 60, 4999⟩], []⟩
          ⟨540, 1020, 30, 15, 0⟩
          ([(⟨"basic", [], 600⟩ : Engine.BookingRequest),
            ⟨"basic", [], 600⟩].take n) ⟨[], 1⟩).2.bookings) := by
  have h := reserve_race_exclusion ⟨[⟨"basic", "Basic Wash", 60, 4999⟩], []⟩
    ⟨540, 1020, 30, 15, 0⟩ ⟨[], 1⟩ ⟨"basic", [], 600⟩ [⟨"basic", [], 600⟩]
    List.Pairwise.nil
    (by intro q hq; fin_cases hq <;> rfl)
    (by
      intro q hq
      fin_cases hq <;>
        · intro d hd
          have h0 : Engine.reqDuration ⟨[⟨"basic", "Basic Wash", 60, 4999⟩], []⟩
              ⟨"basic", [], 600⟩ = some 60 := by decide
          rw [h0] at hd
          obtain rfl : d = 60 := (Option.some.inj hd).symm
          exact ⟨by decide, by decide, by decide⟩)
    (by intro q hq; fin_cases hq <;> · intro d hd; rfl)
    (by
      intro q hq
      fin_cases hq
      intro d d' hd hd'
      have h0 : Engine.reqDuration ⟨[⟨"basic", "Basic Wash", 60, 4999⟩], []⟩
          ⟨"basic", [], 600⟩ = some 60 := by decide
      rw [h0] at hd hd'
      obtain rfl : d = 60 := (Option.some.inj hd).symm
      obtain rfl : d' = 60 := (Option.some.inj hd').symm
      exact ⟨by decide, by decide⟩)
  exact h

theorem dropWhile_head_not (p : Char → Bool) :
    ∀ (l : List Char) (x : Char) (rest : List Char),
      l.dropWhile p = x :: rest → p x = false := by
  intro l
  induction l with
  | nil => intro x rest h; cases h
  | cons a t ih =>
    intro x rest h
    rw [List.dropWhile_cons] at h
    split at h
    · exact ih x rest h
    · next hpa =>
      cases h
      exact Bool.eq_false_iff.mpr hpa

theorem takeWhile_append_all (p : Char → Bool) (l₁ l₂ : List Char)
    (h : ∀ x ∈ l₁, p x = true) :
    (l₁ ++ l₂).takeWhile p = l₁ ++ l₂.takeWhile p := by
  induction l₁ with
  | nil => rfl
  | cons a t ih =>
    rw [List.cons_append, List.takeWhile_cons, if_pos (h a (List.mem_cons_self a t)),
      ih (fun x hx => h x (List.mem_cons_of_mem a hx)), List.cons_append]

theorem dropWhile_append_all (p : Char → Bool) (l₁ l₂ : List Char)
    (h : ∀ x ∈ l₁, p x = true) :
    (l₁ ++ l₂).dropWhile p = l₂.dropWhile p := by
  induction l₁ with
  | nil => rfl
  | cons a t ih =>
    rw [List.cons_append, List.dropWhile_cons, if_pos (h a (List.mem_cons_self a t)),
      ih (fun x hx => h x (List.mem_cons_of_mem a hx))]

theorem mem_drop_one_dropLast (x : Char) (l : List Char) :
    x ∈ (l.drop 1).dropLast ↔ ∃ u v, l = u ++ x :: v ∧ u ≠ [] ∧ v ≠ [] := by
  constructor
  · intro hx
    cases l with
    | nil => cases hx
    | cons h t =>
      simp only [List.drop_succ_cons, List.drop_zero] at hx
      have ht : t ≠ [] := by
        intro h0
        rw [h0] at hx
        cases hx
      obtain ⟨u, w, huw⟩ := List.append_of_mem hx
      refine ⟨h :: u, w ++ [t.getLast ht], ?_, by simp, by simp⟩
      have hsplit : t.dropLast ++ [t.getLast ht] = t := List.dropLast_append_getLast ht
      rw [List.cons_append]
      congr 1
      calc t = t.dropLast ++ [t.getLast ht] := hsplit.symm
        _ = (u ++ x :: w) ++ [t.getLast ht] := by rw [huw]
        _ = u ++ x :: (w ++ [t.getLast ht]) := by simp
  · rintro ⟨u, v, rfl, hu, hv⟩
    cases u with
    | nil => exact absurd rfl hu
    | cons uh ut =>
      simp only [List.cons_append, List.drop_succ_cons, List.drop_zero]
      rw [List.dropLast_append_cons]
      cases v with
      | nil => exact absurd rfl hv
      | cons vh vt =>
        rw [List.dropLast_cons₂]
        exact List.mem_append_right _ (List.mem_cons_self x _)

theorem emailRegexTest_iff (l : List Char) :
    Frontend.emailRegexTest l = true ↔ Frontend.MatchesEmailPattern l := by
  constructor
  · intro h
    unfold Frontend.emailRegexTest at h
    split at h
    · cases h
    · next ch post hsplit =>
      simp only [Bool.and_eq_true] at h
      obtain ⟨⟨⟨hne, hallA⟩, hallPost⟩, hdot⟩ := h
      have hch : ch = '@' := by
        have := dropWhile_head_not _ l ch post hsplit
        simpa using this
      subst hch
      have hdec : l = l.takeWhile (fun c => c ≠ '@') ++ ('@' :: post) := by
        rw [← hsplit, List.takeWhile_append_dropWhile]
      obtain ⟨u, v, hpost, hu, hv⟩ :=
        (mem_drop_one_dropLast '.' post).mp (List.elem_iff.mp hdot)
      refine ⟨l.takeWhile (fun c => c ≠ '@'), u, v, ?_, ?_, hu, hv, ?_, ?_, ?_⟩
      · rw [hpost] at hdec
        exact hdec
      · intro h0
        rw [h0] at hne
        cases hne
      · exact fun x hx => List.all_eq_true.mp hallA x hx
      · intro x hx
        exact List.all_eq_true.mp hallPost x (hpost ▸ List.mem_append_left _ hx)
      · intro x hx
        refine List.all_eq_true.mp hallPost x ?_
        rw [hpost]
        exact List.mem_append_right _ (List.mem_cons_of_mem _ hx)
  · rintro ⟨a, b, c, rfl, ha, hb, hc, hA, hB, hC⟩
    have hpredA : ∀ x ∈ a, (fun ch : Char => decide (ch ≠ '@')) x = true := by
      intro x hx
      have := hA x hx
      unfold Frontend.emailOk at this
      simp only [Bool.and_eq_true, bne_iff_ne] at this
      simpa using this.2
    have hdrop : (a ++ '@' :: (b ++ '.' :: c)).dropWhile (fun ch => decide (ch ≠ '@'))
        = '@' :: (b ++ '.' :: c) := by
      rw [dropWhile_append_all _ _ _ hpredA, List.dropWhile_cons]
      simp
    have htake : (a ++ '@' :: (b ++ '.' :: c)).takeWhile (fun ch => decide (ch ≠ '@'))
        = a := by
      rw [takeWhile_append_all _ _ _ hpredA, List.takeWhile_cons]
      simp
    unfold Frontend.emailRegexTest
    rw [hdrop, htake]
    simp only [Bool.and_eq_true]
    refine ⟨⟨⟨?_, ?_⟩, ?_⟩, ?_⟩
    · simp [List.isEmpty_iff, ha]
    · exact List.all_eq_true.mpr hA
    · refine List.all_eq_true.mpr ?_
      intro x hx
      rcases List.mem_append.mp hx with hxb | hxc
      · exact hB x hxb
      · rcases List.mem_cons.mp hxc with rfl | hxc'
        · decide
        · exact hC x hxc'
    · exact List.elem_iff.mpr ((mem_drop_one_dropLast '.' (b ++ '.' :: c)).mpr
        ⟨b, c, rfl, hb, hc⟩)

theorem filter_dropWhile_of_imp (p q : Char → Bool)
    (h : ∀ x, q x = true → p x = false) :
    ∀ l : List Char, (l.dropWhile q).filter p = l.filter p := by
  intro l
  induction l with
  | nil => rfl
  | cons a t ih =>
    rw [List.dropWhile_cons]
    split
    · next hq =>
      rw [ih, List.filter_cons, if_neg]
      simp [h a hq]
    · rfl

theorem filter_trimChars (p : Char → Bool)
    (h : ∀ x, x.isWhitespace = true → p x = false) (l : List Char) :
    (Frontend.trimChars l).filter p = l.filter p := by
  unfold Frontend.trimChars
  rw [List.filter_reverse, filter_dropWhile_of_imp p Char.isWhitespace h,
    List.filter_reverse, filter_dropWhile_of_imp p Char.isWhitespace h,
    List.reverse_reverse]

theorem trimChars_ne_nil_of_mem (x : Char) (l : List Char) (hx : x ∈ l)
    (hw : x.isWhitespace = false) : Frontend.trimChars l ≠ [] := by
  intro h0
  have hf := filter_trimChars (fun c => !c.isWhitespace)
    (fun c hc => by simp [hc]) l
  rw [h0] at hf
  have hxm : x ∈ l.filter (fun c => !c.isWhitespace) :=
    List.mem_filter.mpr ⟨hx, by simp [hw]⟩
  rw [← hf] at hxm
  cases hxm

theorem isDigit_not_isWhitespace (ch : Char) (h : ch.isDigit = true) :
    ch.isWhitespace = false := by
  by_contra hw
  simp only [Bool.not_eq_false] at hw
  simp only [Char.isWhitespace, Bool.or_eq_true, decide_eq_true_eq] at hw
  rcases hw with ((rfl | rfl) | rfl) | rfl <;> exact absurd h (by decide)

theorem matches_not_ws_mem (l : List Char) (hm : Frontend.MatchesEmailPattern l) :
    ∃ x ∈ l, x.isWhitespace = false := by
  obtain ⟨a, b, c, rfl, -, -, -, -, -, -⟩ := hm
  exact ⟨'@', List.mem_append_right _ (List.mem_cons_self _ _), by decide⟩

theorem errBlock_nil_iff {A B : Prop} [Decidable A] [Decidable B]
    (x y : String × String) :
    ((if A then [x] else if B then [y] else []) = ([] : List (String × String)))
      ↔ ¬A ∧ ¬B := by
  by_cases hA : A <;> by_cases hB : B <;> simp [hA, hB]

theorem lenBlock_nil_iff (n : List Char) (k : Nat) (hk : 0 < k)
    (x y : String × String) :
    ((if (Frontend.trimChars n).isEmpty then [x]
      else if (Frontend.trimChars n).length < k then [y] else [])
        = ([] : List (String × String))) ↔
    k ≤ (Frontend.trimChars n).length := by
  rw [errBlock_nil_iff]
  constructor
  · rintro ⟨h1, h2⟩
    omega
  · intro h
    constructor
    · intro hE
      rw [List.isEmpty_iff] at hE
      rw [hE] at h
      simp at h
      omega
    · omega

theorem emailBlock_nil_iff (e : List Char) (x y : String × String) :
    ((if (Frontend.trimChars e).isEmpty then [x]
      else if !(Frontend.emailRegexTest e) then [y] else [])
        = ([] : List (String × String))) ↔
    Frontend.MatchesEmailPattern e := by
  rw [errBlock_nil_iff]
  constructor
  · rintro ⟨h1, h2⟩
    refine (emailRegexTest_iff e).mp ?_
    cases htest : Frontend.emailRegexTest e
    · exact absurd (by simp [htest]) h2
    · rfl
  · intro h
    have ht := (emailRegexTest_iff e).mpr h
    constructor
    · intro hE
      rw [List.isEmpty_iff] at hE
      obtain ⟨z, hz, hw⟩ := matches_not_ws_mem e h
      exact trimChars_ne_nil_of_mem z e hz hw hE
    · simp [ht]

theorem phoneBlock_nil_iff (ph : List Char) (x y : String × String) :
    ((if (Frontend.trimChars ph).isEmpty then [x]
      else if (ph.filter Char.isDigit).length ≠ 10 then [y] else [])
        = ([] : List (String × String))) ↔
    (ph.filter Char.isDigit).length = 10 := by
  rw [errBlock_nil_iff]
  constructor
  · rintro ⟨h1, h2⟩
    exact not_not.mp h2
  · intro h
    refine ⟨?_, fun hne => hne h⟩
    intro hE
    rw [List.isEmpty_iff] at hE
    have hfne : ph.filter Char.isDigit ≠ [] := by
      intro h0
      rw [h0] at h
      cases h
    obtain ⟨z, hz⟩ := List.exists_mem_of_ne_nil _ hfne
    obtain ⟨hzm, hzd⟩ := List.mem_filter.mp hz
    exact trimChars_ne_nil_of_mem z ph hzm (isDigit_not_isWhitespace z hzd) hE

theorem validateCustomerInfo_iff (info : Frontend.CustomerInfo) :
    Frontend.validateCustomerInfo info = true ↔
      2 ≤ (Frontend.trimChars info.name).length ∧
      Frontend.MatchesEmailPattern info.email ∧
      (info.phone.filter Char.isDigit).length = 10 ∧
      10 ≤ (Frontend.trimChars info.address).length := by
  unfold Frontend.validateCustomerInfo Frontend.customerInfoErrors
  rw [List.isEmpty_iff, List.append_eq_nil, List.append_eq_nil, List.append_eq_nil,
    lenBlock_nil_iff info.name 2 (by omega), emailBlock_nil_iff info.email,
    phoneBlock_nil_iff info.phone, lenBlock_nil_iff info.address 10 (by omega)]
  tauto

/-- C10: `validateCustomerInfo` returns true exactly when the trimmed name
has length at least 2, the email matches `^[^\s@]+@[^\s@]+\.[^\s@]+$`, the
phone holds exactly 10 digit characters after stripping non-digits, and the
trimmed address has length at least 10; and from step 3 `handleContinue`
reaches step 4 exactly when that validation passes. -/
theorem validateCustomerInfo_spec :
    (∀ info : Frontend.CustomerInfo,
      Frontend.validateCustomerInfo info = true ↔
        2 ≤ (Frontend.trimChars info.name).length ∧
        Frontend.MatchesEmailPattern info.email ∧
        (info.phone.filter Char.isDigit).length = 10 ∧
        10 ≤ (Frontend.trimChars info.address).length) ∧
    (∀ (svc : Option String) (sel : List String) (date : Option String)
        (slot : Option Frontend.TimeSlotF) (info : Frontend.CustomerInfo),
      (Frontend.handleContinue ⟨3, svc, sel, date, slot, info⟩).currentStep = 4 ↔
        Frontend.validateCustomerInfo info = true) := by
  refine ⟨validateCustomerInfo_iff, ?_⟩
  intro svc sel date slot info
  by_cases hv : Frontend.validateCustomerInfo info = true
  · simp [Frontend.handleContinue, hv]
  · simp [Frontend.handleContinue, hv]
